import Mathlib

/-!
Verification of the record ingestion, normalization and validation pipeline of
the file-validator repository (the utility module `sanitizeKeys`,
`validateEndBalance`, `reorderRecordForXml`, `formatZodErrors`, `processFile`,
`parseXml` and the `accountRecordSchema` from the schema module).

Modelling conventions for the JavaScript runtime:

* A JS number (`JNum`) is NaN, +Infinity, -Infinity or an exact fraction `Q`
  (integer numerator over positive natural denominator, not normalized; all
  comparisons are value-level cross-multiplications).  The decimal values
  flowing through this pipeline are represented exactly; binary double
  rounding of decimal literals is not modelled.
* `Number()` string coercion handles trimmed decimal literals with optional
  fraction and exponent and the `Infinity` forms; hex/octal/binary literals
  are not modelled (none occur in this repository's data or tests).
* `toLowerCase` is modelled on the Basic Latin range, exactly as the canonical
  field names require.
* A JS object is an insertion-ordered association list with unique keys;
  property assignment (`objSet`) updates a present key in place and appends an
  absent one, as JS objects do.  `for key in record` together with
  `record[key]` visits the entries in order.
* The zod `safeParse` of `accountRecordSchema` is modelled field by field
  (`schemaIssues`); a record parses successfully iff the issue list is empty.
  The issue message for a failed number coercion is the one recorded by the
  repository's own test suite; the remaining message texts are modelled from
  the zod library's behaviour.
* `Set` membership and insertion use SameValueZero (`sameValueZero`), which
  compares strings by content and numbers by numeric value (NaN matching NaN).
-/

/-- An exact fraction: `n / d` with a positive denominator.  Not normalized;
all observations are value-level. -/
structure Q where
  n : ℤ
  d : ℕ+
deriving DecidableEq

def qden (a : Q) : ℤ := (a.d.val : ℤ)

def qeq (a b : Q) : Bool := a.n * qden b == b.n * qden a

def qlt (a b : Q) : Bool := decide (a.n * qden b < b.n * qden a)

def qneg (a : Q) : Bool := decide (a.n < 0)

def qnonneg (a : Q) : Bool := decide (0 ≤ a.n)

def qzero (a : Q) : Bool := a.n == 0

def qIsInt (a : Q) : Bool := a.n % qden a == 0

def qadd (a b : Q) : Q := ⟨a.n * qden b + b.n * qden a, a.d * b.d⟩

def qofNat (m : ℕ) : Q := ⟨(m : ℤ), 1⟩

def pow10P (k : ℕ) : ℕ+ := ⟨10 ^ k, Nat.pos_pow_of_pos k (by decide)⟩

def qdivPow10 (a : Q) (k : ℕ) : Q := ⟨a.n, a.d * pow10P k⟩

def qmulPow10 (a : Q) (k : ℕ) : Q := ⟨a.n * (10 ^ k : ℕ), a.d⟩

def qminus (a : Q) : Q := ⟨-a.n, a.d⟩

inductive JNum where
  | nan
  | inf
  | ninf
  | fin (q : Q)
deriving DecidableEq

inductive JValue where
  | str (s : String)
  | num (n : JNum)
  | undefined
deriving DecidableEq

/-- Numeric value equality with NaN matching NaN: the equivalence the JS
`Set` uses on numbers under SameValueZero. -/
def jnumSameValue : JNum → JNum → Bool
  | .nan, .nan => true
  | .inf, .inf => true
  | .ninf, .ninf => true
  | .fin a, .fin b => qeq a b
  | _, _ => false

/-- The SameValueZero comparison of the JS `Set`. -/
def sameValueZero : JValue → JValue → Bool
  | .str a, .str b => a == b
  | .num a, .num b => jnumSameValue a b
  | .undefined, .undefined => true
  | _, _ => false

abbrev Obj := List (String × JValue)

/-- JS property read: `o[k]`, `undefined` when the key is absent. -/
def objGet (o : Obj) (k : String) : JValue :=
  match o.find? (fun p => p.1 == k) with
  | some p => p.2
  | none => .undefined

/-- JS property write `o[k] = v`: update in place if the key is present
(keeping its position), append otherwise. -/
def objSet (o : Obj) (k : String) (v : JValue) : Obj :=
  if o.any (fun p => p.1 == k) then
    o.map (fun p => if p.1 == k then (k, v) else p)
  else
    o ++ [(k, v)]

/-- The character class of the regular expression `\s` in JS. -/
def isJsWs (c : Char) : Bool :=
  decide (c.toNat = 0x20 ∨ c.toNat = 0x9 ∨ c.toNat = 0xa ∨ c.toNat = 0xd ∨
    c.toNat = 0xb ∨ c.toNat = 0xc ∨ c.toNat = 0xa0 ∨ c.toNat = 0x1680 ∨
    (0x2000 ≤ c.toNat ∧ c.toNat ≤ 0x200a) ∨
    c.toNat = 0x2028 ∨ c.toNat = 0x2029 ∨ c.toNat = 0x202f ∨
    c.toNat = 0x205f ∨ c.toNat = 0x3000 ∨ c.toNat = 0xfeff)

/-- `toLowerCase` on one UTF-16 unit, Basic Latin range. -/
def toLowerJs (c : Char) : Char :=
  if 65 ≤ c.toNat ∧ c.toNat ≤ 90 then Char.ofNat (c.toNat + 32) else c

/-- `key.replace(/\s+/g, "")`. -/
def removeWs (s : String) : String :=
  ⟨s.data.filter (fun c => !isJsWs c)⟩

/-- `s.charAt(0).toLowerCase() + s.slice(1)`. -/
def lowerFirst (s : String) : String :=
  match s.data with
  | [] => ""
  | c :: cs => ⟨toLowerJs c :: cs⟩

/-- The key transformation applied by `sanitizeKeys` to each key. -/
def sanitizeKey (k : String) : String :=
  lowerFirst (removeWs k)

/-- The `for key in record` loop of `sanitizeKeys`, entry by entry. -/
def sanitizeKeysAux (sanitizeRecord : Obj) : Obj → Obj
  | [] => sanitizeRecord
  | p :: rest => sanitizeKeysAux (objSet sanitizeRecord (sanitizeKey p.1) p.2) rest

/-- `sanitizeKeys` from the utility module. -/
def sanitizeKeys (record : Obj) : Obj :=
  sanitizeKeysAux [] record

def JNum.isNaN : JNum → Bool
  | .nan => true
  | _ => false

def JNum.isFinite : JNum → Bool
  | .fin _ => true
  | _ => false

/-- JS `+` on numbers. -/
def jadd : JNum → JNum → JNum
  | .nan, _ => .nan
  | _, .nan => .nan
  | .inf, .ninf => .nan
  | .ninf, .inf => .nan
  | .inf, _ => .inf
  | _, .inf => .inf
  | .ninf, _ => .ninf
  | _, .ninf => .ninf
  | .fin a, .fin b => .fin (qadd a b)

def natOfDigits (ds : List Char) : ℕ :=
  ds.foldl (fun acc c => acc * 10 + (c.toNat - 48)) 0

/-- The exponent part of a JS numeric string, after the `e`/`E`. -/
def parseExpPart (mant : Q) (r : List Char) : Option Q :=
  let se := match r with
    | '-' :: t => (true, t)
    | '+' :: t => (false, t)
    | _ => (false, r)
  let ed := se.2.span Char.isDigit
  if ed.1.isEmpty || !ed.2.isEmpty then none
  else if se.1 then some (qdivPow10 mant (natOfDigits ed.1))
  else some (qmulPow10 mant (natOfDigits ed.1))

/-- An unsigned JS decimal literal `digits[.digits][e[±]digits]`. -/
def parseDecimal (cs : List Char) : Option Q :=
  let d := cs.span Char.isDigit
  let f := match d.2 with
    | '.' :: r => r.span Char.isDigit
    | _ => (([] : List Char), d.2)
  if d.1.isEmpty && f.1.isEmpty then none
  else
    let mant : Q := qadd (qofNat (natOfDigits d.1)) (qdivPow10 (qofNat (natOfDigits f.1)) f.1.length)
    match f.2 with
    | [] => some mant
    | 'e' :: r => parseExpPart mant r
    | 'E' :: r => parseExpPart mant r
    | _ => none

/-- JS `Number()` applied to a string. -/
def strToNumber (s : String) : JNum :=
  let t := ((s.data.dropWhile isJsWs).reverse.dropWhile isJsWs).reverse
  if t.isEmpty then .fin (qofNat 0)
  else
    match t with
    | '-' :: r =>
      if r = "Infinity".data then .ninf
      else
        match parseDecimal r with
        | some q => .fin (qminus q)
        | none => .nan
    | '+' :: r =>
      if r = "Infinity".data then .inf
      else
        match parseDecimal r with
        | some q => .fin q
        | none => .nan
    | _ =>
      if t = "Infinity".data then .inf
      else
        match parseDecimal t with
        | some q => .fin q
        | none => .nan

/-- JS `Number()` on the values a record field can hold. -/
def toNumber : JValue → JNum
  | .num n => n
  | .str s => strToNumber s
  | .undefined => .nan

def pad2 (m : ℕ) : String :=
  if m < 10 then "0" ++ toString m else toString m

/-- The hundredths count of `|q|` rounded half away from zero:
`⌊100·|q| + 1/2⌋ = (200·|n| + d) / (2·d)` in natural division. -/
def hundredths (q : Q) : ℕ :=
  (200 * q.n.natAbs + q.d.val) / (2 * q.d.val)

/-- JS `Number.prototype.toFixed(2)`: format the absolute value rounded to the
nearest hundredth (ties away from zero) with exactly two fraction digits, and
prepend `-` for negative inputs — so a negative value rounding to zero renders
as `"-0.00"`. -/
def toFixed2 : JNum → String
  | .nan => "NaN"
  | .inf => "Infinity"
  | .ninf => "-Infinity"
  | .fin q =>
    (if qneg q then "-" else "") ++
    toString (hundredths q / 100) ++ "." ++ pad2 (hundredths q % 100)

/-- Smallest power of ten clearing the denominator, searched up to 10^63
(ample for every value this pipeline produces). -/
def decScale (nAbs d : ℕ) : Option ℕ :=
  (List.range 64).find? (fun k => (nAbs * 10 ^ k) % d == 0)

def padZeros (m k : ℕ) : String :=
  ⟨List.replicate (k - (toString m).length) '0'⟩ ++ toString m

/-- JS `ToString` of a finite number, for values with a finite decimal
expansion (the only finite values this pipeline produces).  Integers render
with no decimal point, e.g. `110` not `110.00`. -/
def qToJsString (q : Q) : String :=
  if q.n = 0 then "0"
  else
    let sgn := if q.n < 0 then "-" else ""
    let nAbs := q.n.natAbs
    match decScale nAbs q.d.val with
    | some k =>
      let scaled : ℕ := nAbs * 10 ^ k / q.d.val
      if k = 0 then sgn ++ toString scaled
      else sgn ++ toString (scaled / 10 ^ k) ++ "." ++ padZeros (scaled % 10 ^ k) k
    | none => sgn ++ toString nAbs ++ "/" ++ toString q.d.val

/-- JS string interpolation of a number. -/
def jnumToString : JNum → String
  | .nan => "NaN"
  | .inf => "Infinity"
  | .ninf => "-Infinity"
  | .fin q => qToJsString q

/-- `validateEndBalance` from the utility module. -/
def validateEndBalance (record : Obj) : Option String :=
  let startBalance := toNumber (objGet record "startBalance")
  let mutation := toNumber (objGet record "mutation")
  let endBalance := toNumber (objGet record "endBalance")
  if startBalance.isNaN || mutation.isNaN || endBalance.isNaN then
    some "Invalid number format for balance or mutation."
  else
    let calculatedEndBalance := jadd startBalance mutation
    if toFixed2 calculatedEndBalance != toFixed2 endBalance then
      some ("Mismatching end balance: Expected: " ++ jnumToString calculatedEndBalance ++
        ", Received: " ++ jnumToString endBalance)
    else
      none

/-- `reorderRecordForXml` from the utility module:
`const { reference, ...rest } = record; return { reference, ...rest }`. -/
def reorderRecordForXml (record : Obj) : Obj :=
  ("reference", objGet record "reference") :: record.filter (fun p => !(p.1 == "reference"))

structure Issue where
  path : List String
  message : String
deriving DecidableEq

/-- `formatZodErrors` from the utility module. -/
def formatZodErrors (issues : List Issue) : String :=
  String.intercalate " | "
    (issues.map (fun issue =>
      "Field - " ++ String.intercalate "." issue.path ++ " Error - " ++ issue.message))

inductive FieldKind where
  | coerceNum
  | coerceNumIntNonneg
  | strField
deriving DecidableEq

/-- Issues of `z.coerce.number()` on one field value.  The NaN message is the
one the repository's test suite records; the non-finite message is modelled
from the zod library. -/
def coerceNumberIssues (name : String) (v : JValue) : List Issue :=
  match toNumber v with
  | .nan => [⟨[name], "Invalid input: expected number, received NaN"⟩]
  | .inf => [⟨[name], "Invalid input: expected number, received Infinity"⟩]
  | .ninf => [⟨[name], "Invalid input: expected number, received Infinity"⟩]
  | .fin _ => []

/-- Issues of one schema field on the value found under its key.  The `int`
and `nonnegative` checks both run and accumulate, as zod checks do; their
message texts are modelled from the zod library. -/
def fieldIssues (kind : FieldKind) (name : String) (v : JValue) : List Issue :=
  match kind with
  | .coerceNum => coerceNumberIssues name v
  | .coerceNumIntNonneg =>
    match toNumber v with
    | .fin q =>
      (if qIsInt q then [] else [⟨[name], "Invalid input: expected int, received number"⟩]) ++
      (if qnonneg q then [] else [⟨[name], "Too small: expected number to be >=0"⟩])
    | _ => coerceNumberIssues name v
  | .strField =>
    match v with
    | .str _ => []
    | .num _ => [⟨[name], "Invalid input: expected string, received number"⟩]
    | .undefined => [⟨[name], "Invalid input: expected string, received undefined"⟩]

/-- `accountRecordSchema` from the schema module: shape keys in declaration
order with their validators. -/
def accountRecordSchema : List (String × FieldKind) :=
  [("reference", .coerceNumIntNonneg),
   ("accountNumber", .strField),
   ("startBalance", .coerceNum),
   ("mutation", .coerceNum),
   ("endBalance", .coerceNum),
   ("description", .strField)]

/-- The issue list of `accountRecordSchema.safeParse` on a record; parsing
succeeds iff this list is empty.  zod object parsing checks every shape key
and accumulates the per-field issues in shape order. -/
def schemaIssues (r : Obj) : List Issue :=
  (accountRecordSchema.map (fun p => fieldIssues p.2 p.1 (objGet r p.1))).flatten

/-- The per-record arrangement applied before pushing an error record:
`type === "xml" ? reorderRecordForXml(sanitizedRecord) : sanitizedRecord`. -/
def arrangeRecord (ty : String) (r : Obj) : Obj :=
  if ty = "xml" then reorderRecordForXml r else r

/-- `set.has(v)` for the `uniqueReferences` set, SameValueZero membership. -/
def setHas (seen : List JValue) (v : JValue) : Bool :=
  seen.any (fun w => sameValueZero w v)

/-- The first `records.forEach` of `processFile`: collect the structural
failures into `validationErrorRecords`, in input order. -/
def phase1 (ty : String) : List Obj → List Obj
  | [] => []
  | record :: rest =>
    (if (schemaIssues (sanitizeKeys record)).isEmpty then []
     else [objSet (arrangeRecord ty (sanitizeKeys record)) "errors"
             (.str (formatZodErrors (schemaIssues (sanitizeKeys record))))]) ++
    phase1 ty rest

/-- The second `records.forEach` of `processFile`: `uniqueReferences` is the
`Set` of raw `reference` values seen so far. -/
def phase2 (ty : String) (uniqueReferences : List JValue) : List Obj → List Obj
  | [] => []
  | record :: rest =>
    (if ((if setHas uniqueReferences (objGet (sanitizeKeys record) "reference") then
            ["Duplicate record"] else []) ++
         (validateEndBalance (sanitizeKeys record)).toList).isEmpty then []
     else [objSet (arrangeRecord ty (sanitizeKeys record)) "errors"
             (.str (String.intercalate " &\n"
               ((if setHas uniqueReferences (objGet (sanitizeKeys record) "reference") then
                   ["Duplicate record"] else []) ++
                (validateEndBalance (sanitizeKeys record)).toList)))]) ++
    phase2 ty
      (if setHas uniqueReferences (objGet (sanitizeKeys record) "reference") then uniqueReferences
       else uniqueReferences ++ [objGet (sanitizeKeys record) "reference"])
      rest

/-- `processFile` from the utility module: run the structural pass; if it
produced any failure return them, otherwise run the duplicate/balance pass
with a fresh `uniqueReferences` set. -/
def processFile (records : List Obj) (ty : String) : List Obj :=
  if (phase1 ty records).isEmpty then phase2 ty [] records
  else phase1 ty records

-- Sanity checks against the repository's own unit tests.

example : sanitizeKey " Reference " = "reference" := by decide

example :
    validateEndBalance
      [("reference", .num (.fin ⟨1, 1⟩)), ("accountNumber", .str "1001"),
       ("startBalance", .num (.fin ⟨100, 1⟩)), ("mutation", .num (.fin ⟨10, 1⟩)),
       ("endBalance", .num (.fin ⟨120, 1⟩)), ("description", .str "w")] =
    some "Mismatching end balance: Expected: 110, Received: 120" := by decide

example :
    validateEndBalance
      [("reference", .num (.fin ⟨1, 1⟩)), ("accountNumber", .str "1001"),
       ("startBalance", .num (.fin ⟨100, 1⟩)), ("mutation", .num (.fin ⟨20, 1⟩)),
       ("endBalance", .num (.fin ⟨120, 1⟩)), ("description", .str "v")] = none := by decide

example :
    formatZodErrors (schemaIssues
      [("reference", .num (.fin ⟨1, 1⟩)), ("accountNumber", .str "1001"),
       ("startBalance", .num (.fin ⟨100, 1⟩)), ("mutation", .str "33e"),
       ("endBalance", .num (.fin ⟨120, 1⟩)), ("description", .str "v")]) =
    "Field - mutation Error - Invalid input: expected number, received NaN" := by decide

example : jnumSameValue (strToNumber "01") (.fin ⟨1, 1⟩) = true := by decide
example : strToNumber "" = .fin ⟨0, 1⟩ := by decide
example : strToNumber "Infinity" = .inf := by decide
example : strToNumber "33e" = .nan := by decide
example : jnumSameValue (strToNumber "1.5e2") (.fin ⟨150, 1⟩) = true := by decide
example : toFixed2 (.fin ⟨-1, 1000⟩) = "-0.00" := by decide
example : toFixed2 (.fin ⟨0, 1⟩) = "0.00" := by decide
example : qToJsString ⟨-1, 1000⟩ = "-0.001" := by decide
example : qToJsString ⟨1, 2⟩ = "0.5" := by decide

example :
    processFile
      [[("reference", .str "1"), ("accountNumber", .str "1001"),
        ("startBalance", .str "100"), ("mutation", .str "20"),
        ("endBalance", .str "120"), ("description", .str "ok")],
       [("reference", .str "1"), ("accountNumber", .str "1002"),
        ("startBalance", .str "100"), ("mutation", .str "20"),
        ("endBalance", .str "120"), ("description", .str "dup")],
       [("reference", .str "3"), ("accountNumber", .str "1003"),
        ("startBalance", .str "100"), ("mutation", .str "10"),
        ("endBalance", .str "120"), ("description", .str "bad")]] "csv" =
    [[("reference", .str "1"), ("accountNumber", .str "1002"),
      ("startBalance", .str "100"), ("mutation", .str "20"),
      ("endBalance", .str "120"), ("description", .str "dup"),
      ("errors", .str "Duplicate record")],
     [("reference", .str "3"), ("accountNumber", .str "1003"),
      ("startBalance", .str "100"), ("mutation", .str "10"),
      ("endBalance", .str "120"), ("description", .str "bad"),
      ("errors", .str "Mismatching end balance: Expected: 110, Received: 120")]] := by decide

/-! ### The XML adapter, modelled from the parser's output tree onward -/

inductive PVal where
  | obj (fields : List (String × PVal))
  | arr (elems : List PVal)
  | prim (v : JValue)

/-- JS optional chaining `x?.k` on a parse tree. -/
def pGet : PVal → String → Option PVal
  | .obj fields, k => (fields.find? (fun p => p.1 == k)).map (fun p => p.2)
  | _, _ => none

/-- A `record` element as a raw field map: its attribute fields. -/
def pvalToObj : PVal → Obj
  | .obj fields => fields.filterMap (fun p =>
      match p.2 with
      | .prim v => some (p.1, v)
      | _ => none)
  | _ => []

/-- `parseXml` from the utility module, modelled from the output tree of the
third-party XML parser onward: `result?.records?.record || []`, then
`processFile(dataArray, "xml")`.  The parser's `isArray` option guarantees
that a present `record` key holds an array, and an absent path is `undefined`,
which `|| []` replaces with the empty list. -/
def parseXml (result : PVal) : List Obj :=
  processFile
    (match pGet result "records" with
     | some recs =>
       match pGet recs "record" with
       | some (.arr l) => l.map pvalToObj
       | _ => []
     | none => [])
    "xml"

/-! ### Spec-side derived forms -/

/-- The raw `reference` value of a record after key normalization — the value
`processFile` feeds to the duplicate set. -/
def refOf (r : Obj) : JValue :=
  objGet (sanitizeKeys r) "reference"

/-- The consistency-pass error list of one record, given the raw references
of the records before it. -/
def consistencyErrors (priorRefs : List JValue) (r : Obj) : List String :=
  (if setHas priorRefs (refOf r) then ["Duplicate record"] else []) ++
  (validateEndBalance (sanitizeKeys r)).toList

/-- The report rows one record contributes in the consistency pass. -/
def reportEntry (ty : String) (priorRefs : List JValue) (r : Obj) : List Obj :=
  if (consistencyErrors priorRefs r).isEmpty then []
  else [objSet (arrangeRecord ty (sanitizeKeys r)) "errors"
          (.str (String.intercalate " &\n" (consistencyErrors priorRefs r)))]

/-- The consistency-pass report in closed form: the record at index `i` is
checked against the raw references of the records before it. -/
def consistencyReport (ty : String) (records : List Obj) : List Obj :=
  ((List.range records.length).map
    (fun i => reportEntry ty ((records.take i).map refOf) (records.getD i []))).flatten

/-- Rounding to two decimal places as the claim words it: the nearest
hundredth, ties away from zero. -/
def specRound2 : JNum → JNum
  | .fin q => .fin ⟨if q.n < 0 then -(hundredths q : ℤ) else (hundredths q : ℤ), ⟨100, by decide⟩⟩
  | n => n

/-! ### Key normalization lemmas -/

theorem toNat_toLowerJs (c : Char) :
    (toLowerJs c).toNat = if 65 ≤ c.toNat ∧ c.toNat ≤ 90 then c.toNat + 32 else c.toNat := by
  unfold toLowerJs
  split
  · next h =>
    have hv : (c.toNat + 32).isValidChar := Or.inl (by omega)
    rw [Char.ofNat, dif_pos hv]
    simp [Char.ofNatAux, Char.toNat, UInt32.toNat, BitVec.toNat_ofNatLt]
  · rfl

theorem isJsWs_toLowerJs (c : Char) : isJsWs (toLowerJs c) = isJsWs c := by
  unfold isJsWs
  rw [toNat_toLowerJs]
  by_cases h : 65 ≤ c.toNat ∧ c.toNat ≤ 90
  · rw [if_pos h]
    rw [decide_eq_decide]
    omega
  · rw [if_neg h]

theorem toLowerJs_idem (c : Char) : toLowerJs (toLowerJs c) = toLowerJs c := by
  have h1 := toNat_toLowerJs c
  by_cases h : 65 ≤ c.toNat ∧ c.toNat ≤ 90
  · rw [if_pos h] at h1
    nth_rewrite 1 [toLowerJs]
    rw [h1, if_neg (by omega)]
  · rw [if_neg h] at h1
    nth_rewrite 1 [toLowerJs]
    rw [h1, if_neg h]

theorem removeWs_data (s : String) :
    (removeWs s).data = s.data.filter (fun c => !isJsWs c) := rfl

theorem removeWs_nonWs (s : String) : ∀ c ∈ (removeWs s).data, isJsWs c = false := by
  intro c hc
  rw [removeWs_data] at hc
  have := List.of_mem_filter hc
  simpa using this

theorem removeWs_of_nonWs (s : String) (h : ∀ c ∈ s.data, isJsWs c = false) :
    removeWs s = s := by
  have : s.data.filter (fun c => !isJsWs c) = s.data :=
    List.filter_eq_self.mpr (fun c hc => by simp [h c hc])
  unfold removeWs
  rw [this]

theorem lowerFirst_nonWs (s : String) (h : ∀ c ∈ s.data, isJsWs c = false) :
    ∀ c ∈ (lowerFirst s).data, isJsWs c = false := by
  unfold lowerFirst
  cases hd : s.data with
  | nil => simp
  | cons c cs =>
    intro x hx
    rcases List.mem_cons.mp hx with hx | hx
    · subst hx
      rw [isJsWs_toLowerJs]
      exact h c (by rw [hd]; exact List.mem_cons_self _ _)
    · exact h x (by rw [hd]; exact List.mem_cons_of_mem _ hx)

theorem lowerFirst_idem (s : String) : lowerFirst (lowerFirst s) = lowerFirst s := by
  unfold lowerFirst
  cases hd : s.data with
  | nil => rfl
  | cons c cs => simp [toLowerJs_idem]

theorem sanitizeKey_idem (k : String) : sanitizeKey (sanitizeKey k) = sanitizeKey k := by
  unfold sanitizeKey
  rw [removeWs_of_nonWs _ (lowerFirst_nonWs _ (removeWs_nonWs k))]
  exact lowerFirst_idem _

/-! ### Object update lemmas -/

theorem objSet_mem {o : Obj} {k : String} {v : JValue} {p : String × JValue}
    (hp : p ∈ objSet o k v) : p ∈ o ∨ p = (k, v) := by
  unfold objSet at hp
  split at hp
  · rcases List.mem_map.mp hp with ⟨q, hq, hfq⟩
    by_cases hqk : q.1 == k
    · rw [if_pos hqk] at hfq
      right
      exact hfq.symm
    · rw [if_neg hqk] at hfq
      left
      exact hfq ▸ hq
  · rcases List.mem_append.mp hp with h | h
    · exact Or.inl h
    · right
      simpa using h

theorem objSet_fresh (o : Obj) (k : String) (v : JValue) (h : ∀ p ∈ o, p.1 ≠ k) :
    objSet o k v = o ++ [(k, v)] := by
  unfold objSet
  rw [if_neg]
  intro hc
  rcases List.any_eq_true.mp hc with ⟨p, hp, hpk⟩
  exact h p hp (by simpa using hpk)

theorem objSet_keys_nodup {o : Obj} (k : String) (v : JValue)
    (h : (o.map Prod.fst).Nodup) : ((objSet o k v).map Prod.fst).Nodup := by
  unfold objSet
  split
  · have : ((o.map (fun p => if p.1 == k then (k, v) else p)).map Prod.fst) = o.map Prod.fst := by
      rw [List.map_map]
      apply List.map_congr_left
      intro p _
      by_cases hpk : p.1 == k
      · simp only [Function.comp, if_pos hpk]
        exact (eq_of_beq hpk).symm
      · simp only [Function.comp, if_neg hpk]
    rw [this]
    exact h
  · next hany =>
    rw [List.map_append]
    rw [List.nodup_append]
    refine ⟨h, by simp, ?_⟩
    intro a ha hb
    have hak : a = k := by simpa using hb
    rcases List.mem_map.mp ha with ⟨p, hp, hpa⟩
    have : o.any (fun p => p.1 == k) = true :=
      List.any_eq_true.mpr ⟨p, hp, by simp [hpa, hak]⟩
    exact hany this

/-! ### sanitizeKeys invariants -/

theorem sanitizeKeysAux_keysFixed :
    ∀ (l acc : Obj), (∀ p ∈ acc, sanitizeKey p.1 = p.1) →
      ∀ p ∈ sanitizeKeysAux acc l, sanitizeKey p.1 = p.1 := by
  intro l
  induction l with
  | nil => intro acc hacc p hp; exact hacc p hp
  | cons a rest ih =>
    intro acc hacc p hp
    refine ih _ ?_ p hp
    intro q hq
    rcases objSet_mem hq with h | h
    · exact hacc q h
    · rw [h]
      exact sanitizeKey_idem a.1

theorem sanitizeKeysAux_keysNodup :
    ∀ (l acc : Obj), (acc.map Prod.fst).Nodup →
      ((sanitizeKeysAux acc l).map Prod.fst).Nodup := by
  intro l
  induction l with
  | nil => intro acc hacc; exact hacc
  | cons a rest ih =>
    intro acc hacc
    exact ih _ (objSet_keys_nodup _ _ hacc)

theorem sanitizeKeysAux_fixed_eq :
    ∀ (l acc : Obj), (∀ p ∈ l, sanitizeKey p.1 = p.1) →
      (((acc ++ l).map Prod.fst).Nodup) → sanitizeKeysAux acc l = acc ++ l := by
  intro l
  induction l with
  | nil => intro acc _ _; simp [sanitizeKeysAux]
  | cons a rest ih =>
    intro acc hl hnd
    have ha : sanitizeKey a.1 = a.1 := hl a (List.mem_cons_self _ _)
    have hfresh : ∀ p ∈ acc, p.1 ≠ a.1 := by
      intro p hp he
      rw [List.map_append, List.nodup_append] at hnd
      exact hnd.2.2 (List.mem_map_of_mem _ hp)
        (by rw [he]; exact List.mem_map_of_mem _ (List.mem_cons_self _ _))
    show sanitizeKeysAux (objSet acc (sanitizeKey a.1) a.2) rest = acc ++ a :: rest
    rw [ha, objSet_fresh _ _ _ hfresh]
    have := ih (acc ++ [(a.1, a.2)])
      (fun p hp => hl p (List.mem_cons_of_mem _ hp))
      (by simpa [List.append_assoc] using hnd)
    simpa [List.append_assoc] using this

theorem sanitizeKeys_keysFixed (r : Obj) :
    ∀ p ∈ sanitizeKeys r, sanitizeKey p.1 = p.1 :=
  sanitizeKeysAux_keysFixed r [] (by simp)

theorem sanitizeKeys_keysNodup (r : Obj) : ((sanitizeKeys r).map Prod.fst).Nodup :=
  sanitizeKeysAux_keysNodup r [] (by simp)

theorem sanitizeKeys_idem (r : Obj) : sanitizeKeys (sanitizeKeys r) = sanitizeKeys r := by
  have := sanitizeKeysAux_fixed_eq (sanitizeKeys r) []
    (sanitizeKeys_keysFixed r) (by simpa using sanitizeKeys_keysNodup r)
  simpa [sanitizeKeys] using this

theorem sanitizeKeysAux_inj_eq :
    ∀ (l acc : Obj), ((acc.map Prod.fst ++ l.map (fun p => sanitizeKey p.1)).Nodup) →
      sanitizeKeysAux acc l = acc ++ l.map (fun p => (sanitizeKey p.1, p.2)) := by
  intro l
  induction l with
  | nil => intro acc _; simp [sanitizeKeysAux]
  | cons a rest ih =>
    intro acc hnd
    have hfresh : ∀ p ∈ acc, p.1 ≠ sanitizeKey a.1 := by
      intro p hp he
      rw [List.nodup_append] at hnd
      exact hnd.2.2 (List.mem_map_of_mem _ hp)
        (by rw [he]; exact List.mem_cons_self _ _)
    show sanitizeKeysAux (objSet acc (sanitizeKey a.1) a.2) rest = _
    rw [objSet_fresh _ _ _ hfresh]
    have := ih (acc ++ [(sanitizeKey a.1, a.2)])
      (by
        simp only [List.map_append, List.map_cons] at hnd ⊢
        simpa [List.append_assoc] using hnd)
    simpa [List.append_assoc] using this

/-! ### Structural pass lemmas -/

theorem phase1_eq (ty : String) (records : List Obj) :
    phase1 ty records =
      (records.filter (fun r => !(schemaIssues (sanitizeKeys r)).isEmpty)).map
        (fun r => objSet (arrangeRecord ty (sanitizeKeys r)) "errors"
          (.str (formatZodErrors (schemaIssues (sanitizeKeys r))))) := by
  induction records with
  | nil => rfl
  | cons r rest ih =>
    by_cases h : (schemaIssues (sanitizeKeys r)).isEmpty
    · simp [phase1, h, List.filter_cons, ih]
    · simp only [Bool.not_eq_true] at h
      simp [phase1, h, List.filter_cons, ih]

theorem phase1_eq_nil_iff (ty : String) (records : List Obj) :
    phase1 ty records = [] ↔ ∀ r ∈ records, schemaIssues (sanitizeKeys r) = [] := by
  induction records with
  | nil => simp [phase1]
  | cons r rest ih =>
    by_cases h : (schemaIssues (sanitizeKeys r)).isEmpty
    · simp only [phase1, h, if_pos, List.nil_append]
      rw [ih]
      constructor
      · intro hall q hq
        rcases List.mem_cons.mp hq with hq | hq
        · subst hq; exact List.isEmpty_iff.mp h
        · exact hall q hq
      · intro hall q hq
        exact hall q (List.mem_cons_of_mem _ hq)
    · simp only [phase1, h, if_neg, Bool.false_eq_true, not_false_iff]
      constructor
      · intro hc
        exact absurd hc (by simp)
      · intro hall
        exact absurd (List.isEmpty_iff.mpr (hall r (List.mem_cons_self _ _))) (by simpa using h)

theorem mem_ite_nil_singleton {c : Prop} [Decidable c] {x er : Obj}
    (h : er ∈ (if c then ([] : List Obj) else [x])) : er = x := by
  split at h
  · simp at h
  · simpa using h

theorem phase1_mem {ty : String} {records : List Obj} {er : Obj}
    (h : er ∈ phase1 ty records) :
    ∃ r, r ∈ records ∧ ∃ s,
      er = objSet (arrangeRecord ty (sanitizeKeys r)) "errors" (.str s) := by
  induction records with
  | nil => simp [phase1] at h
  | cons r rest ih =>
    simp only [phase1] at h
    rcases List.mem_append.mp h with h | h
    · exact ⟨r, List.mem_cons_self _ _, _, mem_ite_nil_singleton h⟩
    · rcases ih h with ⟨q, hq, s, hs⟩
      exact ⟨q, List.mem_cons_of_mem _ hq, s, hs⟩

theorem phase2_mem {ty : String} {er : Obj} :
    ∀ (records : List Obj) (seen : List JValue), er ∈ phase2 ty seen records →
    ∃ r, r ∈ records ∧ ∃ s,
      er = objSet (arrangeRecord ty (sanitizeKeys r)) "errors" (.str s) := by
  intro records
  induction records with
  | nil => intro seen h; simp [phase2] at h
  | cons r rest ih =>
    intro seen h
    simp only [phase2] at h
    rcases List.mem_append.mp h with h | h
    · exact ⟨r, List.mem_cons_self _ _, _, mem_ite_nil_singleton h⟩
    · rcases ih _ h with ⟨q, hq, s, hs⟩
      exact ⟨q, List.mem_cons_of_mem _ hq, s, hs⟩

theorem processFile_mem {ty : String} {records : List Obj} {er : Obj}
    (h : er ∈ processFile records ty) :
    ∃ r, r ∈ records ∧ ∃ s,
      er = objSet (arrangeRecord ty (sanitizeKeys r)) "errors" (.str s) := by
  unfold processFile at h
  split at h
  · exact phase2_mem records [] h
  · exact phase1_mem h

/-! ### SameValueZero and set lemmas -/

theorem qeq_trans {a b c : Q} (h1 : qeq a b = true) (h2 : qeq b c = true) :
    qeq a c = true := by
  simp only [qeq, beq_iff_eq] at h1 h2 ⊢
  have hb : qden b ≠ 0 := by
    simp only [qden]
    exact_mod_cast b.d.ne_zero
  apply mul_right_cancel₀ hb
  linear_combination qden c * h1 + qden a * h2

theorem jnumSameValue_trans {a b c : JNum} (h1 : jnumSameValue a b = true)
    (h2 : jnumSameValue b c = true) : jnumSameValue a c = true := by
  cases a <;> cases b <;> cases c <;>
    simp only [jnumSameValue] at h1 h2 ⊢ <;>
    first
      | trivial
      | exact h1.elim
      | exact h2.elim
      | exact qeq_trans h1 h2

theorem sameValueZero_trans {a b c : JValue} (h1 : sameValueZero a b = true)
    (h2 : sameValueZero b c = true) : sameValueZero a c = true := by
  cases a <;> cases b <;> cases c <;>
    simp only [sameValueZero, beq_iff_eq] at h1 h2 ⊢ <;>
    first
      | trivial
      | exact h1.elim
      | exact h2.elim
      | exact jnumSameValue_trans h1 h2
      | exact h1.trans h2

theorem setHas_append (a b : List JValue) (v : JValue) :
    setHas (a ++ b) v = (setHas a v || setHas b v) := by
  simp [setHas, List.any_append]

theorem setHas_of_trans {l : List JValue} {u v : JValue}
    (hu : setHas l u = true) (huv : sameValueZero u v = true) : setHas l v = true := by
  rcases List.any_eq_true.mp hu with ⟨w, hw, hwu⟩
  exact List.any_eq_true.mpr ⟨w, hw, sameValueZero_trans hwu huv⟩

/-! ### Indexing helpers -/

theorem take_len_add (pre : List Obj) :
    ∀ (l : List Obj) (i : ℕ), (pre ++ l).take (pre.length + i) = pre ++ l.take i := by
  induction pre with
  | nil => intro l i; simp
  | cons a t ih => intro l i; simp [List.take, Nat.succ_add, ih]

theorem getD_len_add (pre : List Obj) :
    ∀ (l : List Obj) (i : ℕ) (d : Obj), (pre ++ l).getD (pre.length + i) d = l.getD i d := by
  induction pre with
  | nil => intro l i d; simp
  | cons a t ih => intro l i d; simpa [List.getD, Nat.succ_add] using ih l i d

/-! ### The consistency pass in closed form -/

theorem phase2_flatten :
    ∀ (records : List Obj) (ty : String) (seen : List JValue) (pre : List Obj),
      (∀ v, setHas seen v = setHas (pre.map refOf) v) →
      phase2 ty seen records =
        ((List.range records.length).map
          (fun i => reportEntry ty (((pre ++ records).take (pre.length + i)).map refOf)
            ((pre ++ records).getD (pre.length + i) []))).flatten := by
  intro records
  induction records with
  | nil =>
    intro ty seen pre h
    simp [phase2]
  | cons r rest ih =>
    intro ty seen pre h
    have hro : objGet (sanitizeKeys r) "reference" = refOf r := rfl
    have hswap : setHas seen (refOf r) = setHas (pre.map refOf) (refOf r) := h (refOf r)
    have htake0 : (pre ++ r :: rest).take (pre.length + 0) = pre := by
      rw [take_len_add pre (r :: rest) 0]
      simp
    have hget0 : (pre ++ r :: rest).getD (pre.length + 0) [] = r := by
      simpa using getD_len_add pre (r :: rest) 0 []
    have happ : (pre ++ [r]) ++ rest = pre ++ r :: rest := by simp
    have hseen' : ∀ v,
        setHas (if setHas seen (refOf r) then seen else seen ++ [refOf r]) v =
        setHas ((pre ++ [r]).map refOf) v := by
      intro v
      rw [List.map_append, setHas_append]
      have hsingle : ∀ x : JValue, setHas (([r] : List Obj).map refOf) x = sameValueZero (refOf r) x := by
        intro x
        simp [setHas]
      rw [hsingle v]
      by_cases hdup : setHas seen (refOf r) = true
      · rw [if_pos hdup, h v]
        cases hsv : sameValueZero (refOf r) v
        · simp
        · have h2 : setHas (pre.map refOf) v = true :=
            setHas_of_trans (hswap ▸ hdup) hsv
          simp [h2]
      · rw [if_neg hdup, setHas_append, h v]
        congr 1
        simp [setHas]
    rw [hswap] at hseen'
    simp only [phase2, hro]
    rw [hswap]
    rw [List.length_cons, List.range_succ_eq_map, List.map_cons, List.flatten_cons, List.map_map]
    congr 1
    · rw [htake0, hget0]
      rfl
    · rw [ih ty _ (pre ++ [r]) hseen']
      apply congrArg List.flatten
      apply List.map_congr_left
      intro i hi
      have hlen : (pre ++ [r]).length + i = pre.length + (i + 1) := by
        simp
        omega
      rw [happ, hlen]
      rfl

/-! ### Duplicate flag characterization -/

theorem validateEndBalance_ne_dup (r : Obj) :
    validateEndBalance r ≠ some "Duplicate record" := by
  unfold validateEndBalance
  dsimp only
  split
  · intro hc
    exact absurd (Option.some.inj hc) (by decide)
  · split
    · intro hc
      have hdata := congrArg String.data (Option.some.inj hc)
      simp only [String.data_append, List.cons_append] at hdata
      injection hdata with h1 _
      exact absurd h1 (by decide)
    · intro hc
      exact Option.noConfusion hc

theorem dup_mem_consistencyErrors_iff (priorRefs : List JValue) (r : Obj) :
    "Duplicate record" ∈ consistencyErrors priorRefs r ↔
      setHas priorRefs (refOf r) = true := by
  unfold consistencyErrors
  rw [List.mem_append]
  constructor
  · rintro (h | h)
    · by_cases hc : setHas priorRefs (refOf r) = true
      · exact hc
      · rw [if_neg hc] at h
        simp at h
    · exfalso
      cases hv : validateEndBalance (sanitizeKeys r) with
      | none =>
        rw [hv] at h
        simp [Option.toList] at h
      | some s =>
        rw [hv] at h
        simp only [Option.toList, List.mem_singleton] at h
        exact validateEndBalance_ne_dup (sanitizeKeys r) (by rw [hv, ← h])
  · intro hc
    left
    rw [if_pos hc]
    exact List.mem_singleton.mpr rfl

theorem setHas_take_map_iff (records : List Obj) (i : ℕ) (v : JValue)
    (hi : i ≤ records.length) :
    setHas ((records.take i).map refOf) v = true ↔
      ∃ j, j < i ∧ sameValueZero (refOf (records.getD j [])) v = true := by
  unfold setHas
  rw [List.any_eq_true]
  constructor
  · rintro ⟨w, hw, hwv⟩
    rcases List.mem_map.mp hw with ⟨r0, hr0, hr0w⟩
    rw [List.mem_take_iff_getElem] at hr0
    rcases hr0 with ⟨j, hj, hjr⟩
    refine ⟨j, lt_of_lt_of_le hj (min_le_left _ _), ?_⟩
    have hg : records.getD j [] = r0 := by
      rw [List.getD_eq_getElem records [] (lt_of_lt_of_le hj (min_le_right _ _))]
      exact hjr
    rw [hg, hr0w]
    exact hwv
  · rintro ⟨j, hji, hjv⟩
    refine ⟨refOf (records.getD j []), ?_, hjv⟩
    apply List.mem_map_of_mem
    rw [List.mem_take_iff_getElem]
    exact ⟨j, lt_min hji (lt_of_lt_of_le hji hi),
      (List.getD_eq_getElem records [] (lt_of_lt_of_le hji hi)).symm⟩

/-! ### processFile in closed form when every record is structurally valid -/

theorem processFile_eq_report {records : List Obj} {ty : String}
    (h : ∀ r ∈ records, schemaIssues (sanitizeKeys r) = []) :
    processFile records ty = consistencyReport ty records := by
  unfold processFile
  rw [if_pos (List.isEmpty_iff.mpr ((phase1_eq_nil_iff ty records).mpr h))]
  rw [phase2_flatten records ty [] [] (fun v => rfl)]
  unfold consistencyReport
  apply congrArg List.flatten
  apply List.map_congr_left
  intro i hi
  simp

/-! ### Concrete records used by witnesses -/

def recValid : Obj :=
  [("reference", .str "1"), ("accountNumber", .str "1001"), ("startBalance", .str "100"),
   ("mutation", .str "20"), ("endBalance", .str "120"), ("description", .str "ok")]

def recBadMutation : Obj :=
  [("reference", .str "2"), ("accountNumber", .str "1002"), ("startBalance", .str "100"),
   ("mutation", .str "33e"), ("endBalance", .str "120"), ("description", .str "bad")]

def recRefOne : Obj :=
  [("reference", .str "1"), ("accountNumber", .str "a"), ("startBalance", .str "1"),
   ("mutation", .str "0"), ("endBalance", .str "1"), ("description", .str "d")]

def recRefOneB : Obj :=
  [("reference", .str "1"), ("accountNumber", .str "b"), ("startBalance", .str "1"),
   ("mutation", .str "0"), ("endBalance", .str "1"), ("description", .str "d")]

def recRefZeroOne : Obj :=
  [("reference", .str "01"), ("accountNumber", .str "b"), ("startBalance", .str "1"),
   ("mutation", .str "0"), ("endBalance", .str "1"), ("description", .str "d")]

def recCollide : Obj := [("Reference", .str "a"), (" reference", .str "b")]

def recPlain : Obj := [(" Reference ", .str "1"), ("AccountNumber", .str "x")]

def dupErrXml : Obj :=
  [("reference", .str "1"), ("accountNumber", .str "b"), ("startBalance", .str "1"),
   ("mutation", .str "0"), ("endBalance", .str "1"), ("description", .str "d"),
   ("errors", .str "Duplicate record")]

def mutErrCsv : Obj :=
  [("reference", .str "2"), ("accountNumber", .str "1002"), ("startBalance", .str "100"),
   ("mutation", .str "33e"), ("endBalance", .str "120"), ("description", .str "bad"),
   ("errors", .str "Field - mutation Error - Invalid input: expected number, received NaN")]

/-! ### Claims -/

/-- C1: for every input sequence with at least one structurally invalid
record, `processFile` returns exactly the structurally-invalid records, in
input order, each annotated with its structural error string — the
duplicate/balance pass contributes nothing, even for the structurally valid
records of the same input. -/
theorem c1_structural_failures_preempt_consistency (records : List Obj) (ty : String)
    (h : ∃ r ∈ records, schemaIssues (sanitizeKeys r) ≠ []) :
    processFile records ty =
      (records.filter (fun r => !(schemaIssues (sanitizeKeys r)).isEmpty)).map
        (fun r => objSet (arrangeRecord ty (sanitizeKeys r)) "errors"
          (.str (formatZodErrors (schemaIssues (sanitizeKeys r))))) := by
  rcases h with ⟨r0, hr0, hne⟩
  have hpe : phase1 ty records ≠ [] := by
    intro hc
    exact hne ((phase1_eq_nil_iff ty records).mp hc r0 hr0)
  unfold processFile
  rw [if_neg (by simpa [List.isEmpty_iff] using hpe)]
  exact phase1_eq ty records

theorem c1_witness :
    processFile [recValid, recBadMutation] "csv" =
      ([recValid, recBadMutation].filter (fun r => !(schemaIssues (sanitizeKeys r)).isEmpty)).map
        (fun r => objSet (arrangeRecord "csv" (sanitizeKeys r)) "errors"
          (.str (formatZodErrors (schemaIssues (sanitizeKeys r))))) :=
  c1_structural_failures_preempt_consistency [recValid, recBadMutation] "csv"
    ⟨recBadMutation, by decide, by decide⟩

/-- C2: with zero structural failures, `processFile` is the consistency
report in closed form, and a record gets the "Duplicate record" error exactly
when an earlier record carries the same raw `reference` value — so second and
later occurrences are flagged and a first occurrence never is.  The set of
seen references starts empty on each invocation: the closed form depends only
on the `records` argument. -/
theorem c2_duplicate_flagging (records : List Obj) (ty : String)
    (h : ∀ r ∈ records, schemaIssues (sanitizeKeys r) = []) :
    processFile records ty = consistencyReport ty records ∧
    ∀ i, i < records.length →
      ("Duplicate record" ∈ consistencyErrors ((records.take i).map refOf) (records.getD i []) ↔
        ∃ j, j < i ∧ sameValueZero (refOf (records.getD j [])) (refOf (records.getD i [])) = true) := by
  refine ⟨processFile_eq_report h, ?_⟩
  intro i hi
  rw [dup_mem_consistencyErrors_iff]
  exact setHas_take_map_iff records i _ (le_of_lt hi)

theorem c2_witness :
    processFile [recRefOne, recRefOneB] "csv" = consistencyReport "csv" [recRefOne, recRefOneB] ∧
    "Duplicate record" ∈
      consistencyErrors (([recRefOne, recRefOneB].take 1).map refOf)
        ([recRefOne, recRefOneB].getD 1 []) :=
  ⟨(c2_duplicate_flagging [recRefOne, recRefOneB] "csv" (by decide)).1,
   ((c2_duplicate_flagging [recRefOne, recRefOneB] "csv" (by decide)).2 1 (by decide)).mpr
     ⟨0, by decide, by decide⟩⟩

/-- C5: key normalization removes all whitespace and lower-cases only the
first remaining character (`" Reference "` ↦ `reference`, `AccountNumber` ↦
`accountNumber`), and normalizing a raw field map twice equals normalizing it
once. -/
theorem c5_key_normalization (record : Obj) :
    sanitizeKey " Reference " = "reference" ∧
    sanitizeKey "AccountNumber" = "accountNumber" ∧
    sanitizeKeys (sanitizeKeys record) = sanitizeKeys record :=
  ⟨by decide, by decide, sanitizeKeys_idem record⟩

/-- C6 counterexample: when two keys normalize to the same key, the later
entry overwrites the earlier one, so a value of the input map is dropped —
refuting "the output contains one entry per input entry, with the same
value". -/
theorem c6_counterexample :
    recCollide.length = 2 ∧
    sanitizeKeys recCollide = [("reference", .str "b")] ∧
    (.str "a" : JValue) ∈ recCollide.map Prod.snd ∧
    (.str "a" : JValue) ∉ (sanitizeKeys recCollide).map Prod.snd := by decide

/-- C6 amended: provided no two keys of the record normalize to the same key,
`sanitizeKeys` maps each entry to the same value under the normalized key, in
order — only keys change and no value is dropped. -/
theorem c6_values_preserved (record : Obj)
    (h : (record.map (fun p => sanitizeKey p.1)).Nodup) :
    sanitizeKeys record = record.map (fun p => (sanitizeKey p.1, p.2)) := by
  have := sanitizeKeysAux_inj_eq record [] (by simpa using h)
  simpa [sanitizeKeys] using this

theorem c6_witness :
    sanitizeKeys recPlain = recPlain.map (fun p => (sanitizeKey p.1, p.2)) :=
  c6_values_preserved recPlain (by decide)

/-- C8: every error record produced from XML input has `reference` as its
first field, and every error record produced from CSV input is its sanitized
source record with the `errors` field set — source field order unchanged. -/
theorem c8_error_record_field_order (records : List Obj) :
    (∀ er ∈ processFile records "xml", ∃ v t, er = ("reference", v) :: t) ∧
    (∀ er ∈ processFile records "csv", ∃ r, r ∈ records ∧ ∃ s,
      er = objSet (sanitizeKeys r) "errors" (.str s)) := by
  constructor
  · intro er her
    rcases processFile_mem her with ⟨r, hr, s, hs⟩
    rw [hs]
    have harr : arrangeRecord "xml" (sanitizeKeys r) = reorderRecordForXml (sanitizeKeys r) := by
      simp [arrangeRecord]
    rw [harr]
    unfold reorderRecordForXml objSet
    split
    · refine ⟨objGet (sanitizeKeys r) "reference",
        ((sanitizeKeys r).filter (fun p => !(p.1 == "reference"))).map
          (fun p => if p.1 == "errors" then ("errors", JValue.str s) else p), ?_⟩
      simp only [List.map_cons]
      rw [if_neg (by decide)]
    · refine ⟨objGet (sanitizeKeys r) "reference",
        (sanitizeKeys r).filter (fun p => !(p.1 == "reference")) ++ [("errors", JValue.str s)], ?_⟩
      rw [List.cons_append]
  · intro er her
    rcases processFile_mem her with ⟨r, hr, s, hs⟩
    refine ⟨r, hr, s, ?_⟩
    rw [hs]
    have : arrangeRecord "csv" (sanitizeKeys r) = sanitizeKeys r := by
      simp [arrangeRecord]
    rw [this]

theorem c8_witness :
    (∃ v t, dupErrXml = ("reference", v) :: t) ∧
    (∃ r, r ∈ [recValid, recBadMutation] ∧ ∃ s,
      mutErrCsv = objSet (sanitizeKeys r) "errors" (.str s)) :=
  ⟨(c8_error_record_field_order [recRefOne, recRefOneB]).1 dupErrXml (by decide),
   (c8_error_record_field_order [recValid, recBadMutation]).2 mutErrCsv (by decide)⟩

/-- C10 (implicit): the duplicate set holds the raw, uncoerced `reference`
values; when all raw references are pairwise distinct no record is flagged as
a duplicate, even when distinct raw values coerce to the same number (e.g.
`"1"` and `"01"`). -/
theorem c10_duplicates_use_raw_references (records : List Obj) (ty : String)
    (h : ∀ r ∈ records, schemaIssues (sanitizeKeys r) = [])
    (hdistinct : ∀ i j, i < j → j < records.length →
      sameValueZero (refOf (records.getD i [])) (refOf (records.getD j [])) = false)
    (_hcollide : ∃ i j, i < records.length ∧ j < records.length ∧ i ≠ j ∧
      jnumSameValue (toNumber (refOf (records.getD i [])))
        (toNumber (refOf (records.getD j []))) = true) :
    processFile records ty = consistencyReport ty records ∧
    ∀ i, i < records.length →
      "Duplicate record" ∉
        consistencyErrors ((records.take i).map refOf) (records.getD i []) := by
  refine ⟨processFile_eq_report h, ?_⟩
  intro i hi hyp
  rw [dup_mem_consistencyErrors_iff] at hyp
  rcases (setHas_take_map_iff records i _ (le_of_lt hi)).mp hyp with ⟨j, hj, hsv⟩
  have hne := hdistinct j i hj hi
  rw [hne] at hsv
  exact Bool.noConfusion hsv

theorem c10_witness :
    processFile [recRefOne, recRefZeroOne] "csv" =
      consistencyReport "csv" [recRefOne, recRefZeroOne] ∧
    "Duplicate record" ∉
      consistencyErrors (([recRefOne, recRefZeroOne].take 1).map refOf)
        ([recRefOne, recRefZeroOne].getD 1 []) :=
  ⟨(c10_duplicates_use_raw_references [recRefOne, recRefZeroOne] "csv" (by decide)
      (by
        intro i j hij hj2
        have hj2b : j < 2 := by simpa using hj2
        have hj : j = 0 ∨ j = 1 := by omega
        rcases hj with rfl | rfl
        · omega
        · have hi0 : i = 0 := by omega
          subst hi0
          decide)
      ⟨0, 1, by decide, by decide, by decide, by decide⟩).1,
   (c10_duplicates_use_raw_references [recRefOne, recRefZeroOne] "csv" (by decide)
      (by
        intro i j hij hj2
        have hj2b : j < 2 := by simpa using hj2
        have hj : j = 0 ∨ j = 1 := by omega
        rcases hj with rfl | rfl
        · omega
        · have hi0 : i = 0 := by omega
          subst hi0
          decide)
      ⟨0, 1, by decide, by decide, by decide, by decide⟩).2 1 (by decide)⟩

/-! ### Balance checker claims -/

theorem schemaIssues_decomp (record : Obj) :
    schemaIssues record =
      fieldIssues .coerceNumIntNonneg "reference" (objGet record "reference") ++
      (fieldIssues .strField "accountNumber" (objGet record "accountNumber") ++
      (fieldIssues .coerceNum "startBalance" (objGet record "startBalance") ++
      (fieldIssues .coerceNum "mutation" (objGet record "mutation") ++
      (fieldIssues .coerceNum "endBalance" (objGet record "endBalance") ++
      (fieldIssues .strField "description" (objGet record "description") ++ []))))) := rfl

theorem coerceNumberIssues_nil {name : String} {v : JValue}
    (h : coerceNumberIssues name v = []) : ∃ q, toNumber v = .fin q := by
  cases hn : toNumber v with
  | fin q => exact ⟨q, rfl⟩
  | nan => unfold coerceNumberIssues at h; rw [hn] at h; simp at h
  | inf => unfold coerceNumberIssues at h; rw [hn] at h; simp at h
  | ninf => unfold coerceNumberIssues at h; rw [hn] at h; simp at h

def recNegTiny : Obj :=
  [("reference", .str "1"), ("accountNumber", .str "a"), ("startBalance", .str "-0.001"),
   ("mutation", .str "0"), ("endBalance", .str "0"), ("description", .str "d")]

/-- C3 counterexample: a structurally valid record with finite balances whose
sum (-0.001) and end balance (0) round to the same two-decimal value, yet
`validateEndBalance` reports a mismatch — `toFixed(2)` renders the sum as
"-0.00" and the end balance as "0.00", and the code compares those strings. -/
theorem c3_counterexample :
    schemaIssues recNegTiny = [] ∧
    (toNumber (objGet recNegTiny "startBalance")).isFinite = true ∧
    (toNumber (objGet recNegTiny "mutation")).isFinite = true ∧
    (toNumber (objGet recNegTiny "endBalance")).isFinite = true ∧
    jnumSameValue
      (specRound2 (jadd (toNumber (objGet recNegTiny "startBalance"))
        (toNumber (objGet recNegTiny "mutation"))))
      (specRound2 (toNumber (objGet recNegTiny "endBalance"))) = true ∧
    validateEndBalance recNegTiny =
      some "Mismatching end balance: Expected: -0.001, Received: 0" := by decide

/-- C3 amended: for a structurally valid record, `validateEndBalance` returns
no error exactly when the two-decimal `toFixed` renderings of
`startBalance + mutation` and of `endBalance` agree as strings (numeric
equality of the rounded values, except that a negative value rounding to zero
renders as "-0.00" and differs from "0.00"); any error is the mismatch
message carrying the unrounded sum and the received `endBalance`. -/
theorem c3_balance_comparison (record : Obj) (h : schemaIssues record = []) :
    ((validateEndBalance record = none) ↔
      toFixed2 (jadd (toNumber (objGet record "startBalance"))
        (toNumber (objGet record "mutation"))) =
      toFixed2 (toNumber (objGet record "endBalance"))) ∧
    (validateEndBalance record = none ∨
      validateEndBalance record =
        some ("Mismatching end balance: Expected: " ++
          jnumToString (jadd (toNumber (objGet record "startBalance"))
            (toNumber (objGet record "mutation"))) ++
          ", Received: " ++ jnumToString (toNumber (objGet record "endBalance")))) := by
  rw [schemaIssues_decomp] at h
  simp only [List.append_eq_nil, List.append_nil] at h
  obtain ⟨-, -, hsb, hmu, hen, -⟩ := h
  obtain ⟨qs, hqs⟩ := coerceNumberIssues_nil (show coerceNumberIssues "startBalance" _ = [] from hsb)
  obtain ⟨qm, hqm⟩ := coerceNumberIssues_nil (show coerceNumberIssues "mutation" _ = [] from hmu)
  obtain ⟨qe, hqe⟩ := coerceNumberIssues_nil (show coerceNumberIssues "endBalance" _ = [] from hen)
  have hVE : validateEndBalance record =
      (if toFixed2 (jadd (.fin qs) (.fin qm)) != toFixed2 (.fin qe) then
        some ("Mismatching end balance: Expected: " ++ jnumToString (jadd (.fin qs) (.fin qm)) ++
          ", Received: " ++ jnumToString (.fin qe))
      else none) := by
    unfold validateEndBalance
    rw [hqs, hqm, hqe]
    simp [JNum.isNaN]
  rw [hqs, hqm, hqe, hVE]
  by_cases hab : toFixed2 (jadd (JNum.fin qs) (JNum.fin qm)) = toFixed2 (JNum.fin qe)
  · rw [if_neg (by simp [bne_iff_ne, hab])]
    exact ⟨⟨fun _ => hab, fun _ => rfl⟩, Or.inl rfl⟩
  · rw [if_pos (by simp [bne_iff_ne, hab])]
    exact ⟨⟨fun hc => Option.noConfusion hc, fun hc => absurd hc hab⟩, Or.inr rfl⟩

theorem c3_witness :
    ((validateEndBalance recValid = none) ↔
      toFixed2 (jadd (toNumber (objGet recValid "startBalance"))
        (toNumber (objGet recValid "mutation"))) =
      toFixed2 (toNumber (objGet recValid "endBalance"))) ∧
    (validateEndBalance recValid = none ∨
      validateEndBalance recValid =
        some ("Mismatching end balance: Expected: " ++
          jnumToString (jadd (toNumber (objGet recValid "startBalance"))
            (toNumber (objGet recValid "mutation"))) ++
          ", Received: " ++ jnumToString (toNumber (objGet recValid "endBalance")))) :=
  c3_balance_comparison recValid (by decide)

def recInfinity : Obj :=
  [("reference", .str "1"), ("accountNumber", .str "a"), ("startBalance", .str "Infinity"),
   ("mutation", .str "0"), ("endBalance", .str "Infinity"), ("description", .str "d")]

/-- C4 counterexample: `startBalance` coerces to Infinity — not a finite
number — yet `validateEndBalance` returns no error at all: the code only
guards against NaN, and Infinity flows into the `toFixed` comparison
("Infinity" = "Infinity"). -/
theorem c4_counterexample :
    (toNumber (objGet recInfinity "startBalance")).isFinite = false ∧
    validateEndBalance recInfinity = none := by decide

/-- C4 amended: whenever any of the three balance values coerces to NaN,
`validateEndBalance` returns the distinct format error and the mismatch
comparison is not performed. -/
theorem c4_nan_guard (record : Obj)
    (h : (toNumber (objGet record "startBalance")).isNaN = true ∨
         (toNumber (objGet record "mutation")).isNaN = true ∨
         (toNumber (objGet record "endBalance")).isNaN = true) :
    validateEndBalance record = some "Invalid number format for balance or mutation." := by
  unfold validateEndBalance
  dsimp only
  rw [if_pos]
  rcases h with h | h | h <;> simp [h]

theorem c4_witness :
    validateEndBalance recBadMutation =
      some "Invalid number format for balance or mutation." :=
  c4_nan_guard recBadMutation (Or.inr (Or.inl (by decide)))

/-! ### XML adapter claim -/

theorem processFile_nil (ty : String) : processFile [] ty = [] := rfl

/-- C7: when the `records`/`record` path is absent from the parsed XML
document (no `records` root, no `record` children, or an empty `record`
array), `parseXml` processes zero records and returns the empty report. -/
theorem c7_xml_empty_report (result : PVal)
    (h : match pGet result "records" with
         | none => True
         | some recs => pGet recs "record" = none ∨ pGet recs "record" = some (.arr [])) :
    parseXml result = [] := by
  unfold parseXml
  cases hr : pGet result "records" with
  | none => exact processFile_nil "xml"
  | some recs =>
    rw [hr] at h
    have h2 : pGet recs "record" = none ∨ pGet recs "record" = some (.arr []) := h
    dsimp only
    rcases h2 with h2 | h2 <;> rw [h2] <;> exact processFile_nil "xml"

theorem c7_witness : parseXml (.obj []) = [] :=
  c7_xml_empty_report (.obj []) trivial

/-! ### Structural validator claims -/

def issueText (issue : Issue) : String :=
  "Field - " ++ String.intercalate "." issue.path ++ " Error - " ++ issue.message

theorem fieldIssues_path (kind : FieldKind) (name : String) (v : JValue) :
    ∀ i ∈ fieldIssues kind name v, i.path = [name] := by
  intro i hi
  cases kind with
  | coerceNum =>
    cases hn : toNumber v <;>
      · unfold fieldIssues coerceNumberIssues at hi
        rw [hn] at hi
        simp at hi
        try simp [hi]
  | coerceNumIntNonneg =>
    cases hn : toNumber v with
    | fin q =>
      unfold fieldIssues at hi
      rw [hn] at hi
      rcases List.mem_append.mp hi with h | h <;>
        · split at h
          · simp at h
          · rw [List.mem_singleton.mp h]
    | nan =>
      unfold fieldIssues coerceNumberIssues at hi
      rw [hn] at hi
      simp at hi
      simp [hi]
    | inf =>
      unfold fieldIssues coerceNumberIssues at hi
      rw [hn] at hi
      simp at hi
      simp [hi]
    | ninf =>
      unfold fieldIssues coerceNumberIssues at hi
      rw [hn] at hi
      simp at hi
      simp [hi]
  | strField =>
    cases v <;>
      · unfold fieldIssues at hi
        simp at hi
        try simp [hi]

theorem mem_schemaIssues_of_field (record : Obj) (name : String) (kind : FieldKind)
    (hmem : (name, kind) ∈ accountRecordSchema) (i : Issue)
    (hi : i ∈ fieldIssues kind name (objGet record name)) : i ∈ schemaIssues record := by
  unfold schemaIssues
  rw [List.mem_flatten]
  exact ⟨fieldIssues kind name (objGet record name),
    List.mem_map.mpr ⟨(name, kind), hmem, rfl⟩, hi⟩

theorem two_mem_length {α : Type} {l : List α} {a b : α}
    (ha : a ∈ l) (hb : b ∈ l) (hab : a ≠ b) : 2 ≤ l.length := by
  cases l with
  | nil => simp at ha
  | cons x t =>
    cases t with
    | nil =>
      simp at ha hb
      exact absurd (ha.trans hb.symm) hab
    | cons y u =>
      simp only [List.length_cons]
      omega

def recTwoBad : Obj :=
  [("reference", .str "1"), ("accountNumber", .str "a"), ("startBalance", .str "1"),
   ("mutation", .str "33e"), ("endBalance", .str "x7"), ("description", .str "d")]

def recNegRef : Obj :=
  [("reference", .str "-1"), ("accountNumber", .str "a"), ("startBalance", .str "1"),
   ("mutation", .str "0"), ("endBalance", .str "1"), ("description", .str "d")]

/-- C9: the structural validator collects the failures of every failing field
(two distinct failing fields contribute at least two issues, and each failing
field is represented among the issue paths); the error string is the
" | "-join of one "Field - path Error - message" entry per issue; and a record
whose reference coerces to a negative or non-integer number fails structural
validation. -/
theorem c9_structural_error_collection :
    (∀ issues : List Issue,
      formatZodErrors issues = String.intercalate " | " (issues.map issueText)) ∧
    (∀ (record : Obj) (name1 name2 : String) (k1 k2 : FieldKind),
      (name1, k1) ∈ accountRecordSchema → (name2, k2) ∈ accountRecordSchema →
      name1 ≠ name2 →
      fieldIssues k1 name1 (objGet record name1) ≠ [] →
      fieldIssues k2 name2 (objGet record name2) ≠ [] →
      2 ≤ (schemaIssues record).length ∧
      (∃ i ∈ schemaIssues record, i.path = [name1]) ∧
      (∃ i ∈ schemaIssues record, i.path = [name2])) ∧
    (∀ (record : Obj) (q : Q), toNumber (objGet record "reference") = .fin q →
      qIsInt q = false ∨ qnonneg q = false → schemaIssues record ≠ []) := by
  refine ⟨fun issues => rfl, ?_, ?_⟩
  · intro record name1 name2 k1 k2 h1 h2 hne hf1 hf2
    obtain ⟨i1, hi1⟩ := List.exists_mem_of_ne_nil _ hf1
    obtain ⟨i2, hi2⟩ := List.exists_mem_of_ne_nil _ hf2
    have hp1 := fieldIssues_path k1 name1 _ i1 hi1
    have hp2 := fieldIssues_path k2 name2 _ i2 hi2
    have hm1 := mem_schemaIssues_of_field record name1 k1 h1 i1 hi1
    have hm2 := mem_schemaIssues_of_field record name2 k2 h2 i2 hi2
    refine ⟨two_mem_length hm1 hm2 ?_, ⟨i1, hm1, hp1⟩, ⟨i2, hm2, hp2⟩⟩
    intro hc
    apply hne
    rw [hc, hp2] at hp1
    exact (List.cons.inj hp1).1.symm
  · intro record q hq hbad
    rw [schemaIssues_decomp]
    intro hc
    simp only [List.append_eq_nil, List.append_nil] at hc
    have href : fieldIssues .coerceNumIntNonneg "reference" (objGet record "reference") = [] :=
      hc.1
    unfold fieldIssues at href
    rw [hq] at href
    simp at href
    rcases hbad with hb | hb
    · rw [href.1] at hb
      exact Bool.noConfusion hb
    · rw [href.2] at hb
      exact Bool.noConfusion hb

theorem c9_witness :
    (2 ≤ (schemaIssues recTwoBad).length ∧
      (∃ i ∈ schemaIssues recTwoBad, i.path = ["mutation"]) ∧
      (∃ i ∈ schemaIssues recTwoBad, i.path = ["endBalance"])) ∧
    schemaIssues recNegRef ≠ [] :=
  ⟨c9_structural_error_collection.2.1 recTwoBad "mutation" "endBalance" .coerceNum .coerceNum
     (by decide) (by decide) (by decide) (by decide) (by decide),
   c9_structural_error_collection.2.2 recNegRef ⟨-1, 1⟩ (by decide) (Or.inr (by decide))⟩
